import Mathlib

/-!
Formal model of the core of `algo_web` (`src/lib.rs`): the deterministic
board generator `model_default` and the game state machine `update`,
shallowly embedded from the Rust source.  The pseudo-random generator
(`StdRng` seeded from a constant) is abstracted as a seed-determined
integer stream; `gen_range(lo, hi)` consumes one stream element and
reduces it into the half-open interval `[lo, hi)`, which is exactly the
contract of rand's `gen_range`.  Machine integers (`i64`, `u64`, `usize`)
are modelled as `ℤ` / `ℕ`; the only cast whose wrapping matters,
`as u64` on the jittered coordinates, is modelled explicitly with
`% 2^64`.  Rust's panicking index operations are modelled with the total
`List.set` / `List.getD`; all claims about clicks carry the in-bounds
preconditions under which the two semantics agree.
-/

namespace AlgoWeb

/-- Abstract deterministic PRNG state: the seed-determined stream of raw
draws together with the index of the next draw.  `StdRng::from_seed(seed)`
corresponds to pairing the seed's stream with index `0`. -/
structure RngState where
  stream : Nat → ℤ
  idx : Nat

/-- Model of rand 0.7 `Rng::gen_range(lo, hi)`: one draw from the stream,
reduced into `[lo, hi)`, advancing the state by one. -/
def genRange (lo hi : ℤ) (r : RngState) : ℤ × RngState :=
  (lo + r.stream r.idx % (hi - lo), ⟨r.stream, r.idx + 1⟩)

/-- `Page` from `src/lib.rs`. -/
inductive Page where
  | Play
  | Ranking
  deriving DecidableEq

/-- `Model` from `src/lib.rs`: the whole session state.  `numbers : Vec<i64>`
becomes `List ℤ`, `points : Vec<(u64, u64)>` becomes `List (ℕ × ℕ)`,
`selected : Option<usize>` becomes `Option Nat`. -/
structure Model where
  numbers : List ℤ
  points : List (ℕ × ℕ)
  is_used : List Bool
  selected : Option Nat
  page : Page
  is_finished : Bool
  name : String
  deriving DecidableEq

/-- `Msg` from `src/lib.rs`. -/
inductive Msg where
  | Clicked (id : Nat)
  | ClickedPlay
  | ClickedRanking
  | ClickedRollBack
  | ClickedSendButton
  | ChangedTextArea (s : String)
  deriving DecidableEq

/-- Rust `i as u64` on an `i64` value: two's-complement wrap into `[0, 2^64)`. -/
def castU64 (v : ℤ) : ℕ := (v % (2 : ℤ) ^ 64).toNat

/-- The three base row coordinates `x` of the generator. -/
def xRows : List ℤ := [6, 18, 30]

/-- The six base column coordinates `y` of the generator. -/
def yCols : List ℤ := [16, 28, 40, 52, 64, 76]

/-- The 18 base grid points: cross product of `xRows` and `yCols`, in the
order produced by `flat_map`. -/
def baseGrid : List (ℤ × ℤ) := xRows.flatMap fun i => yCols.map fun j => (i, j)

/-- The jitter pass of the generator: for each point, draw an offset in
`[-2, 3)` for the row and then one for the column, in list order —
exactly the `map` over the collected `flat_map` output. -/
def jitterPoints : List (ℤ × ℤ) → RngState → List (ℤ × ℤ) × RngState
  | [], r => ([], r)
  | (i, j) :: rest, r =>
    let di := genRange (-2) 3 r
    let dj := genRange (-2) 3 di.2
    let tail := jitterPoints rest dj.2
    ((i + di.1, j + dj.1) :: tail.1, tail.2)

/-- Swap two positions of a list; out-of-range indices leave the list
unchanged (matching `Vec::swap`, which cannot be called out of range in
the modelled loop). -/
def swapL {α : Type} (l : List α) (i j : Nat) : List α :=
  match l[i]?, l[j]? with
  | some a, some b => (l.set i b).set j a
  | _, _ => l

/-- The loop body of rand 0.7 `SliceRandom::shuffle`: for `i` from
`len - 1` down to `1`, swap position `i` with a drawn position in
`[0, i+1)`.  The fuel argument is the current `i`. -/
def shuffleStep {α : Type} : List α → RngState → Nat → List α × RngState
  | l, r, 0 => (l, r)
  | l, r, Nat.succ k =>
    let d := genRange 0 ((k : ℤ) + 2) r
    shuffleStep (swapL l (k + 1) d.1.toNat) d.2 k

/-- `points.shuffle(&mut rng)`: Fisher–Yates over the whole list. -/
def shuffle {α : Type} (l : List α) (r : RngState) : List α × RngState :=
  shuffleStep l r (l.length - 1)

/-- `(0..n).map(|_| rng.gen_range(-100, 101))`: draw `n` values in
`[-100, 101)`, in draw order. -/
def drawNumbers : Nat → RngState → List ℤ × RngState
  | 0, r => ([], r)
  | Nat.succ k, r =>
    let v := genRange (-100) 101 r
    let rest := drawNumbers k v.2
    (v.1 :: rest.1, rest.2)

/-- `Vec::resize(n, d)`: truncate to `n` entries or pad with `d`. -/
def resizeL {α : Type} (l : List α) (n : Nat) (d : α) : List α :=
  l.take n ++ List.replicate (n - l.length) d

/-- `model_default` from `src/lib.rs`, parameterized by the seed's raw
draw stream `g`.  Draw order matches the source: 36 jitter draws, then
the shuffle draws, then the tile-count draw `gen_range(12, 13)`, then the
value draws.  Note the source really initializes `is_finished` to `true`
(line 61). -/
def model_default (g : Nat → ℤ) : Model :=
  let r0 : RngState := ⟨g, 0⟩
  let jp := jitterPoints baseGrid r0
  let pts0 := jp.1.map fun p => (castU64 p.1, castU64 p.2)
  let sh := shuffle pts0 jp.2
  let nd := genRange 12 13 sh.2
  let n := nd.1.toNat
  let nums := drawNumbers n nd.2
  { numbers := nums.1
    points := resizeL sh.1 n (50, 50)
    is_used := List.replicate n false
    selected := none
    page := Page.Play
    is_finished := true
    name := "" }

/-- `model.is_used.iter().filter(|&&b| b).count()`. -/
def countUsed (l : List Bool) : Nat := (l.filter fun b => b).length

/-- `update` from `src/lib.rs`, as a pure function on `Model`. -/
def update (msg : Msg) (m : Model) : Model :=
  match msg with
  | Msg.Clicked id =>
    match m.selected with
    | some a_id =>
      let m1 :=
        if a_id ≠ id then
          { m with
            numbers := m.numbers.set a_id (m.numbers.getD a_id 0 - m.numbers.getD id 0)
            is_used := m.is_used.set id true }
        else m
      let m2 := { m1 with selected := none }
      if countUsed m2.is_used + 1 = m2.is_used.length then
        { m2 with is_finished := true }
      else m2
    | none => { m with selected := some id }
  | Msg.ClickedPlay => { m with page := Page.Play }
  | Msg.ClickedRanking => { m with page := Page.Ranking }
  | Msg.ClickedRollBack => m
  | Msg.ClickedSendButton => m
  | Msg.ChangedTextArea s => { m with name := s }

/-- The score computation of `view_result`: the value paired with the
first `used == false` flag.  The source calls `.unwrap()`; the model
returns an `Option` so that the no-panic claim is statable. -/
def score (m : Model) : Option ℤ :=
  ((m.numbers.zip m.is_used).find? fun p => !p.2).map Prod.fst

/-- A message is valid when a clicked tile id refers to an existing,
currently unused tile (the collaborator contract of the spec); all other
messages are unconditionally valid. -/
def validMsg (m : Model) : Msg → Prop
  | Msg.Clicked id => m.is_used[id]? = some false
  | _ => True

/-- States reachable from the generated initial session by valid actions. -/
inductive Reachable (g : Nat → ℤ) : Model → Prop
  | init : Reachable g (model_default g)
  | step {m : Model} (msg : Msg) : Reachable g m → validMsg m msg →
      Reachable g (update msg m)

/-! Basic facts about the PRNG model and the generator components. -/

theorem genRange_fst_lb (lo hi : ℤ) (r : RngState) (h : lo < hi) :
    lo ≤ (genRange lo hi r).1 := by
  have := Int.emod_nonneg (r.stream r.idx) (b := hi - lo) (by omega)
  simp only [genRange]
  omega

theorem genRange_fst_ub (lo hi : ℤ) (r : RngState) (h : lo < hi) :
    (genRange lo hi r).1 < hi := by
  have := Int.emod_lt_of_pos (r.stream r.idx) (b := hi - lo) (by omega)
  simp only [genRange]
  omega

theorem genRange_snd (lo hi : ℤ) (r : RngState) :
    (genRange lo hi r).2 = ⟨r.stream, r.idx + 1⟩ := rfl

theorem jitterPoints_length (l : List (ℤ × ℤ)) (r : RngState) :
    (jitterPoints l r).1.length = l.length := by
  induction l generalizing r with
  | nil => rfl
  | cons p rest ih => simp [jitterPoints, ih]

theorem jitterPoints_mem (l : List (ℤ × ℤ)) (r : RngState) :
    ∀ p ∈ (jitterPoints l r).1,
      ∃ q ∈ l, q.1 - 2 ≤ p.1 ∧ p.1 ≤ q.1 + 2 ∧ q.2 - 2 ≤ p.2 ∧ p.2 ≤ q.2 + 2 := by
  induction l generalizing r with
  | nil => intro p hp; simp [jitterPoints] at hp
  | cons q rest ih =>
    obtain ⟨i, j⟩ := q
    intro p hp
    simp only [jitterPoints, List.mem_cons] at hp
    rcases hp with hp | hp
    · refine ⟨(i, j), List.mem_cons_self _ _, ?_⟩
      have h1 := genRange_fst_lb (-2) 3 r (by norm_num)
      have h2 := genRange_fst_ub (-2) 3 r (by norm_num)
      have h3 := genRange_fst_lb (-2) 3 (genRange (-2) 3 r).2 (by norm_num)
      have h4 := genRange_fst_ub (-2) 3 (genRange (-2) 3 r).2 (by norm_num)
      subst hp
      constructor <;> simp <;> omega
    · obtain ⟨q', hq', hb⟩ := ih _ p hp
      exact ⟨q', List.mem_cons_of_mem _ hq', hb⟩

theorem swapL_length {α : Type} (l : List α) (i j : Nat) :
    (swapL l i j).length = l.length := by
  unfold swapL
  rcases h1 : l[i]? with _ | a <;> rcases h2 : l[j]? with _ | b <;> simp

theorem swapL_subset {α : Type} (l : List α) (i j : Nat) :
    ∀ x ∈ swapL l i j, x ∈ l := by
  intro x hx
  unfold swapL at hx
  rcases h1 : l[i]? with _ | a <;> rcases h2 : l[j]? with _ | b <;>
    rw [h1, h2] at hx <;> try exact hx
  have ha : a ∈ l := List.getElem?_mem h1
  have hb : b ∈ l := List.getElem?_mem h2
  rcases List.mem_or_eq_of_mem_set hx with hx' | hx'
  · rcases List.mem_or_eq_of_mem_set hx' with hx'' | hx''
    · exact hx''
    · exact hx'' ▸ hb
  · exact hx' ▸ ha

theorem shuffleStep_length {α : Type} (l : List α) (r : RngState) (k : Nat) :
    (shuffleStep l r k).1.length = l.length := by
  induction k generalizing l r with
  | zero => rfl
  | succ k ih => simp [shuffleStep, ih, swapL_length]

theorem shuffleStep_subset {α : Type} (l : List α) (r : RngState) (k : Nat) :
    ∀ x ∈ (shuffleStep l r k).1, x ∈ l := by
  induction k generalizing l r with
  | zero => intro x hx; exact hx
  | succ k ih =>
    intro x hx
    simp only [shuffleStep] at hx
    exact swapL_subset _ _ _ x (ih _ _ x hx)

theorem drawNumbers_length (n : Nat) (r : RngState) :
    (drawNumbers n r).1.length = n := by
  induction n generalizing r with
  | zero => rfl
  | succ k ih => simp [drawNumbers, ih]

theorem drawNumbers_mem (n : Nat) (r : RngState) :
    ∀ v ∈ (drawNumbers n r).1, -100 ≤ v ∧ v ≤ 100 := by
  induction n generalizing r with
  | zero => intro v hv; simp [drawNumbers] at hv
  | succ k ih =>
    intro v hv
    simp only [drawNumbers, List.mem_cons] at hv
    rcases hv with hv | hv
    · have h1 := genRange_fst_lb (-100) 101 r (by norm_num)
      have h2 := genRange_fst_ub (-100) 101 r (by norm_num)
      subst hv
      omega
    · exact ih _ v hv

theorem castU64_cast (v : ℤ) (h0 : 0 ≤ v) (h1 : v < 2 ^ 64) :
    (castU64 v : ℤ) = v := by
  unfold castU64
  rw [Int.emod_eq_of_lt h0 h1, Int.toNat_of_nonneg h0]

theorem baseGrid_bounds :
    ∀ q ∈ baseGrid, (6 ≤ q.1 ∧ q.1 ≤ 30) ∧ (16 ≤ q.2 ∧ q.2 ≤ 76) := by decide

/-! Facts about the generated initial model. -/

theorem genRange_12_13 (r : RngState) : (genRange 12 13 r).1 = 12 := by
  simp [genRange]

theorem model_default_is_used (g : Nat → ℤ) :
    (model_default g).is_used = List.replicate 12 false := by
  simp [model_default, genRange_12_13]

theorem model_default_numbers_length (g : Nat → ℤ) :
    (model_default g).numbers.length = 12 := by
  simp [model_default, genRange_12_13, drawNumbers_length]

theorem model_default_selected (g : Nat → ℤ) :
    (model_default g).selected = none := rfl

theorem model_default_is_finished (g : Nat → ℤ) :
    (model_default g).is_finished = true := rfl

theorem model_default_name (g : Nat → ℤ) :
    (model_default g).name = "" := rfl

theorem model_default_points_length (g : Nat → ℤ) :
    (model_default g).points.length = 12 := by
  have h18 : (shuffle ((jitterPoints baseGrid ⟨g, 0⟩).1.map
      fun p => (castU64 p.1, castU64 p.2)) (jitterPoints baseGrid ⟨g, 0⟩).2).1.length = 18 := by
    rw [shuffle, shuffleStep_length]
    simp [jitterPoints_length]
    rfl
  simp [model_default, genRange_12_13, resizeL, h18]

theorem model_default_points_mem (g : Nat → ℤ) :
    ∀ p ∈ (model_default g).points, ∃ q ∈ baseGrid,
      q.1 - 2 ≤ (p.1 : ℤ) ∧ (p.1 : ℤ) ≤ q.1 + 2 ∧
      q.2 - 2 ≤ (p.2 : ℤ) ∧ (p.2 : ℤ) ≤ q.2 + 2 := by
  intro p hp
  have hp' : p ∈ (shuffle ((jitterPoints baseGrid ⟨g, 0⟩).1.map
      fun q => (castU64 q.1, castU64 q.2)) (jitterPoints baseGrid ⟨g, 0⟩).2).1 := by
    simp only [model_default, resizeL, List.mem_append] at hp
    rcases hp with hp | hp
    · exact List.mem_of_mem_take hp
    · exfalso
      have h18 : ((jitterPoints baseGrid ⟨g, 0⟩).1.map
          fun q => (castU64 q.1, castU64 q.2)).length = 18 := by
        simp [jitterPoints_length]; rfl
      rw [shuffle, genRange_12_13] at hp
      simp [shuffleStep_length, h18] at hp
  have hp2 := shuffleStep_subset _ _ _ p hp'
  rw [List.mem_map] at hp2
  obtain ⟨q0, hq0, hcast⟩ := hp2
  obtain ⟨q, hq, hb1, hb2, hb3, hb4⟩ := jitterPoints_mem baseGrid ⟨g, 0⟩ q0 hq0
  have hqb := baseGrid_bounds q hq
  have hx : (castU64 q0.1 : ℤ) = q0.1 := castU64_cast _ (by omega) (by norm_num; omega)
  have hy : (castU64 q0.2 : ℤ) = q0.2 := castU64_cast _ (by omega) (by norm_num; omega)
  refine ⟨q, hq, ?_⟩
  rw [← hcast]
  simp only [hx, hy]
  omega

/-! Component-wise description of a `Clicked` transition. -/

theorem update_none_eq (m : Model) (id : Nat) (hsel : m.selected = none) :
    update (Msg.Clicked id) m = { m with selected := some id } := by
  simp [update, hsel]

theorem update_some_selected (m : Model) (a id : Nat) (hsel : m.selected = some a) :
    (update (Msg.Clicked id) m).selected = none := by
  by_cases hne : a = id <;>
    simp [update, hsel, apply_ite Model.selected, hne]

theorem update_some_is_used (m : Model) (a id : Nat) (hsel : m.selected = some a) :
    (update (Msg.Clicked id) m).is_used =
      if a = id then m.is_used else m.is_used.set id true := by
  by_cases hne : a = id <;>
    simp [update, hsel, apply_ite Model.is_used, hne]

theorem update_some_numbers (m : Model) (a id : Nat) (hsel : m.selected = some a) :
    (update (Msg.Clicked id) m).numbers =
      if a = id then m.numbers
      else m.numbers.set a (m.numbers.getD a 0 - m.numbers.getD id 0) := by
  by_cases hne : a = id <;>
    simp [update, hsel, apply_ite Model.numbers, hne]

theorem update_some_points (m : Model) (a id : Nat) (hsel : m.selected = some a) :
    (update (Msg.Clicked id) m).points = m.points := by
  by_cases hne : a = id <;>
    simp [update, hsel, apply_ite Model.points, hne]

theorem update_some_page (m : Model) (a id : Nat) (hsel : m.selected = some a) :
    (update (Msg.Clicked id) m).page = m.page := by
  by_cases hne : a = id <;>
    simp [update, hsel, apply_ite Model.page, hne]

theorem update_some_name (m : Model) (a id : Nat) (hsel : m.selected = some a) :
    (update (Msg.Clicked id) m).name = m.name := by
  by_cases hne : a = id <;>
    simp [update, hsel, apply_ite Model.name, hne]

theorem update_some_finished (m : Model) (a id : Nat) (hsel : m.selected = some a) :
    (update (Msg.Clicked id) m).is_finished =
      if countUsed (update (Msg.Clicked id) m).is_used + 1 =
          (update (Msg.Clicked id) m).is_used.length then true
      else m.is_finished := by
  rw [update_some_is_used m a id hsel]
  by_cases hne : a = id <;>
    simp [update, hsel, apply_ite Model.is_finished, hne]

/-! Monotonicity of `is_used` and `is_finished` under any message. -/

theorem set_true_keeps (l : List Bool) (id i : Nat) (h : l[i]? = some true) :
    (l.set id true)[i]? = some true := by
  obtain ⟨hi, -⟩ := List.getElem?_eq_some_iff.1 h
  rcases eq_or_ne id i with rfl | hne
  · simp [List.getElem?_set, hi]
  · rw [List.getElem?_set_ne hne]; exact h

theorem update_used_mono (msg : Msg) (m : Model) (i : Nat)
    (h : m.is_used[i]? = some true) :
    (update msg m).is_used[i]? = some true := by
  cases msg with
  | Clicked id =>
    cases hsel : m.selected with
    | none => rw [update_none_eq m id hsel]; exact h
    | some a =>
      rw [update_some_is_used m a id hsel]
      split_ifs
      · exact h
      · exact set_true_keeps _ _ _ h
  | ClickedPlay => exact h
  | ClickedRanking => exact h
  | ClickedRollBack => exact h
  | ClickedSendButton => exact h
  | ChangedTextArea s => exact h

theorem update_finished_mono (msg : Msg) (m : Model)
    (h : m.is_finished = true) :
    (update msg m).is_finished = true := by
  cases msg with
  | Clicked id =>
    cases hsel : m.selected with
    | none => rw [update_none_eq m id hsel]; exact h
    | some a =>
      rw [update_some_finished m a id hsel]
      split_ifs
      · rfl
      · exact h
  | ClickedPlay => exact h
  | ClickedRanking => exact h
  | ClickedRollBack => exact h
  | ClickedSendButton => exact h
  | ChangedTextArea s => exact h

/-- Invariant carried through the reachability induction: the two parallel
lists have equal length, the selection always points at an existing unused
tile, and some unused tile exists. -/
def coreInv (m : Model) : Prop :=
  m.numbers.length = m.is_used.length ∧
  (∀ a, m.selected = some a → m.is_used[a]? = some false) ∧
  ∃ i : Nat, m.is_used[i]? = some false

theorem coreInv_init (g : Nat → ℤ) : coreInv (model_default g) := by
  refine ⟨?_, ?_, ?_⟩
  · rw [model_default_numbers_length, model_default_is_used]
    simp
  · intro a ha
    rw [model_default_selected] at ha
    exact absurd ha (by simp)
  · exact ⟨0, by rw [model_default_is_used]; simp⟩

theorem coreInv_step (msg : Msg) (m : Model) (hv : validMsg m msg)
    (h : coreInv m) : coreInv (update msg m) := by
  obtain ⟨hlen, hsel, i0, hi0⟩ := h
  cases msg with
  | Clicked id =>
    cases hs : m.selected with
    | none =>
      rw [update_none_eq m id hs]
      exact ⟨hlen, fun a ha => by cases ha; exact hv, i0, hi0⟩
    | some a =>
      have ha := hsel a hs
      refine ⟨?_, ?_, ?_⟩
      · rw [update_some_numbers m a id hs, update_some_is_used m a id hs]
        split_ifs <;> simp [hlen]
      · intro b hb
        rw [update_some_selected m a id hs] at hb
        cases hb
      · rw [update_some_is_used m a id hs]
        split_ifs with heq
        · exact ⟨i0, hi0⟩
        · exact ⟨a, by rw [List.getElem?_set_ne (fun he => heq he.symm)]; exact ha⟩
  | ClickedPlay => exact ⟨hlen, hsel, i0, hi0⟩
  | ClickedRanking => exact ⟨hlen, hsel, i0, hi0⟩
  | ClickedRollBack => exact ⟨hlen, hsel, i0, hi0⟩
  | ClickedSendButton => exact ⟨hlen, hsel, i0, hi0⟩
  | ChangedTextArea s => exact ⟨hlen, hsel, i0, hi0⟩

theorem reachable_coreInv (g : Nat → ℤ) (m : Model) (h : Reachable g m) :
    coreInv m := by
  induction h with
  | init => exact coreInv_init g
  | step msg _ hv ih => exact coreInv_step msg _ hv ih

theorem used_foldl_mono (msgs : List Msg) (m : Model) (i : Nat)
    (h : m.is_used[i]? = some true) :
    (msgs.foldl (fun s msg => update msg s) m).is_used[i]? = some true := by
  induction msgs generalizing m with
  | nil => exact h
  | cons msg rest ih => exact ih _ (update_used_mono msg m i h)

/-! The claims. -/

/-- C1: the claim states that the generated initial session has every
used flag false, no selection, an empty player name and
`is_finished = false`.  The source establishes the first three, but line
61 of `src/lib.rs` initializes `is_finished` to `true`, contradicting the
spec's initialization step; this theorem evaluates the generated model's
fields, exhibiting the divergence for every seed stream. -/
theorem C1_init_fields (g : Nat → ℤ) :
    (model_default g).is_used = List.replicate 12 false ∧
    (model_default g).selected = none ∧
    (model_default g).name = "" ∧
    (model_default g).is_finished = true :=
  ⟨model_default_is_used g, model_default_selected g, model_default_name g,
    model_default_is_finished g⟩

/-- C2 (counterexample): the claim states that when `is_finished = true`
every further `Msg.Clicked` leaves the entire state unchanged; but
`update` never inspects `is_finished`.  The generated initial session
itself has `is_finished = true`, and clicking tile 0 there (a valid
action: tile 0 exists and is unused) records a selection and changes the
state. -/
theorem C2_counterexample :
    (model_default (fun _ => 0)).is_finished = true ∧
    update (Msg.Clicked 0) (model_default (fun _ => 0)) ≠
      model_default (fun _ => 0) := by decide

/-- C2 (amended): `is_finished` is terminal as a flag — no message ever
resets it to `false` — but `update` does not gate `Msg.Clicked` on
`is_finished`, so tile-selection actions are still processed and the rest
of the state may change while finished. -/
theorem C2_finished_terminal (m : Model) (msg : Msg)
    (h : m.is_finished = true) : (update msg m).is_finished = true :=
  update_finished_mono msg m h

theorem C2_finished_terminal_witness :
    (update Msg.ClickedPlay (model_default (fun _ => 5))).is_finished = true :=
  C2_finished_terminal (model_default (fun _ => 5)) Msg.ClickedPlay rfl

/-- C3: the claim states that `finished == true` implies exactly one tile
has `used == false` (its value being the score); it already fails in the
generated initial session, where `is_finished = true` (line 61 of
`src/lib.rs`) while all 12 tiles are unused. -/
theorem C3_init_violation (g : Nat → ℤ) :
    (model_default g).is_finished = true ∧
    ((model_default g).is_used.filter (fun b => !b)).length = 12 := by
  refine ⟨model_default_is_finished g, ?_⟩
  rw [model_default_is_used]
  rfl

/-- C4: combine arithmetic: with tile `a` selected, clicking an unused
tile `t ≠ a` (both indices valid) sets `numbers[a]` to the old
`numbers[a] - numbers[t]`, marks `t` used, clears the selection, and
leaves every other value, every other used flag, and all positions
unchanged. -/
theorem C4_combine (m : Model) (a t : Nat) (va vt : ℤ)
    (hsel : m.selected = some a) (hne : t ≠ a)
    (hva : m.numbers[a]? = some va) (hvt : m.numbers[t]? = some vt)
    (hua : m.is_used[a]? = some false) (hut : m.is_used[t]? = some false) :
    (update (Msg.Clicked t) m).numbers[a]? = some (va - vt) ∧
    (update (Msg.Clicked t) m).is_used[t]? = some true ∧
    (update (Msg.Clicked t) m).selected = none ∧
    (∀ i : Nat, i ≠ a → (update (Msg.Clicked t) m).numbers[i]? = m.numbers[i]?) ∧
    (∀ i : Nat, i ≠ t → (update (Msg.Clicked t) m).is_used[i]? = m.is_used[i]?) ∧
    (update (Msg.Clicked t) m).points = m.points := by
  have hat : ¬a = t := fun he => hne he.symm
  have hnum := update_some_numbers m a t hsel
  have hus := update_some_is_used m a t hsel
  rw [if_neg hat] at hnum hus
  have hgda : m.numbers.getD a 0 = va := by
    rw [List.getD_eq_getElem?_getD, hva]; rfl
  have hgdt : m.numbers.getD t 0 = vt := by
    rw [List.getD_eq_getElem?_getD, hvt]; rfl
  refine ⟨?_, ?_, update_some_selected m a t hsel, ?_, ?_,
    update_some_points m a t hsel⟩
  · rw [hnum, List.getElem?_set_self', hva, hgda, hgdt]; rfl
  · rw [hus, List.getElem?_set_self', hut]; rfl
  · intro i hia
    rw [hnum, List.getElem?_set_ne (Ne.symm hia)]
  · intro i hit
    rw [hus, List.getElem?_set_ne (Ne.symm hit)]

/-- A concrete combining session used to instantiate C4. -/
def mC4 : Model :=
  { numbers := [10, 3]
    points := [(1, 2), (3, 4)]
    is_used := [false, false]
    selected := some 0
    page := Page.Play
    is_finished := false
    name := "" }

theorem C4_combine_witness :
    (update (Msg.Clicked 1) mC4).numbers[0]? = some 7 ∧
    (update (Msg.Clicked 1) mC4).is_used[1]? = some true ∧
    (update (Msg.Clicked 1) mC4).selected = none := by
  have h := C4_combine mC4 0 1 10 3 rfl (by decide) (by decide) (by decide)
    (by decide) (by decide)
  exact ⟨h.1, h.2.1, h.2.2.1⟩

/-- C5: the claim states completion exactness over reachable states:
`finished` true iff exactly `N - 1 = 11` tiles are used, false for all
smaller used-counts.  It already fails in the generated initial session,
where `is_finished = true` (line 61 of `src/lib.rs`) although zero of the
12 tiles are used. -/
theorem C5_init_violation (g : Nat → ℤ) :
    (model_default g).is_finished = true ∧
    countUsed (model_default g).is_used = 0 ∧
    (model_default g).is_used.length = 12 := by
  refine ⟨model_default_is_finished g, ?_, ?_⟩ <;> rw [model_default_is_used] <;> rfl

/-- C6: single-selection invariant: in every state reachable by valid
actions, at most one tile is selected (the `selected` field determines a
unique id) and a selected tile is never a used tile. -/
theorem C6_single_selection (g : Nat → ℤ) (m : Model) (h : Reachable g m) :
    (∀ a b : Nat, m.selected = some a → m.selected = some b → a = b) ∧
    (∀ a : Nat, m.selected = some a → m.is_used[a]? = some false) := by
  refine ⟨fun a b ha hb => ?_, (reachable_coreInv g m h).2.1⟩
  rw [ha] at hb
  cases hb
  rfl

theorem C6_single_selection_witness :
    (update (Msg.Clicked 0) (model_default (fun _ => 0))).is_used[0]? = some false :=
  (C6_single_selection (fun _ => 0) _
      (Reachable.step (Msg.Clicked 0) Reachable.init
        (show (model_default (fun _ => 0)).is_used[0]? = some false by decide))).2
    0 (by decide)

/-- C7: monotonic usage: a used flag that is true stays true under any
single action (valid or not), and hence under any sequence of actions. -/
theorem C7_monotonic_usage (m : Model) (i : Nat) :
    (∀ msg : Msg, validMsg m msg → m.is_used[i]? = some true →
      (update msg m).is_used[i]? = some true) ∧
    (∀ msgs : List Msg, m.is_used[i]? = some true →
      (msgs.foldl (fun s msg => update msg s) m).is_used[i]? = some true) :=
  ⟨fun msg _ h => update_used_mono msg m i h,
    fun msgs h => used_foldl_mono msgs m i h⟩

/-- A concrete session with a used tile, used to instantiate C7. -/
def mC7 : Model :=
  { numbers := [4]
    points := [(1, 1)]
    is_used := [true]
    selected := none
    page := Page.Play
    is_finished := false
    name := "" }

theorem C7_monotonic_usage_witness :
    (update Msg.ClickedPlay mC7).is_used[0]? = some true :=
  (C7_monotonic_usage mC7 0).1 Msg.ClickedPlay trivial (by decide)

/-- C8: generator determinism: two independent runs of the generator
whose seed streams agree pointwise (same fixed seed, same configuration)
produce identical sessions — the same values and positions in the same
order. -/
theorem C8_determinism (g1 g2 : Nat → ℤ) (h : ∀ k, g1 k = g2 k) :
    model_default g1 = model_default g2 := by
  rw [funext h]

theorem C8_determinism_witness :
    model_default (fun _ => 0) = model_default (fun k => 0 * (k : ℤ)) :=
  C8_determinism _ _ (fun k => by simp)

/-- C9: range invariant of the generator: every generated value lies in
`[-100, 100]`, and every generated position is a pair of natural numbers
(hence non-negative) each within distance 2 of a base grid coordinate. -/
theorem C9_range (g : Nat → ℤ) :
    (∀ v ∈ (model_default g).numbers, -100 ≤ v ∧ v ≤ 100) ∧
    (∀ p ∈ (model_default g).points, ∃ q ∈ baseGrid,
      q.1 - 2 ≤ (p.1 : ℤ) ∧ (p.1 : ℤ) ≤ q.1 + 2 ∧
      q.2 - 2 ≤ (p.2 : ℤ) ∧ (p.2 : ℤ) ≤ q.2 + 2) := by
  constructor
  · intro v hv
    exact drawNumbers_mem _ _ v hv
  · exact model_default_points_mem g

theorem C9_range_witness :
    (-99 : ℤ) ∈ (model_default (fun _ => 1)).numbers ∧
    (-100 ≤ (-99 : ℤ) ∧ (-99 : ℤ) ≤ 100) :=
  ⟨by decide, (C9_range (fun _ => 1)).1 (-99) (by decide)⟩

/-- C10: in every reachable state at least one tile is still unused, so
the linear search of the score computation finds a value — the `unwrap`
in `view_result` cannot fail. -/
theorem C10_score_safe (g : Nat → ℤ) (m : Model) (h : Reachable g m) :
    false ∈ m.is_used ∧ (score m).isSome = true := by
  obtain ⟨hlen, -, i, hi⟩ := reachable_coreInv g m h
  obtain ⟨hlt, -⟩ := List.getElem?_eq_some_iff.1 hi
  have hlt' : i < m.numbers.length := by omega
  constructor
  · exact List.getElem?_mem hi
  · have hfind : ((m.numbers.zip m.is_used).find? fun p => !p.2).isSome = true := by
      rw [List.find?_isSome]
      have hz : (m.numbers.zip m.is_used)[i]? =
          some (m.numbers.get ⟨i, hlt'⟩, false) := by
        rw [List.getElem?_zip_eq_some]
        exact ⟨List.getElem?_eq_some_iff.2 ⟨hlt', rfl⟩, hi⟩
      exact ⟨(m.numbers.get ⟨i, hlt'⟩, false), List.getElem?_mem hz, rfl⟩
    rw [score]
    rcases hf : (m.numbers.zip m.is_used).find? fun p => !p.2 with _ | v
    · rw [hf] at hfind
      simp at hfind
    · rw [hf]
      rfl

theorem C10_score_safe_witness :
    false ∈ (model_default (fun _ => 3)).is_used ∧
    (score (model_default (fun _ => 3))).isSome = true :=
  C10_score_safe (fun _ => 3) _ Reachable.init

end AlgoWeb
